import Mathlib

/-!
Shallow embedding of the order-sequencing and reconciliation core of the
`ib_trading_system` repository, together with proofs and refutations of the
frozen claims about it.

Sources embedded:
* `src/ib_trading_system/utils_order.py` (`separate_orders`)
* `src/ib_trading_system/trading.py`
  (`Trading.filter_valid_callback`, `Trading.wait_until_orders_are_complete`)
* `src/ib_trading_system/utils_executionTime.py`
  (`parse_execution_time`, `seconds_until_execution`, `is_time_expired`,
  `execute_func_at_time`)
* `src/ib_trading_system/utils_callback.py`
  (`group_execution_and_commission_by_date`)
* `src/main.py` (the `drop_duplicates(subset=["ExecId"], keep="last")` step)
-/

namespace IbTrading

/-- The `Action` column of an order row.  The data model restricts this
column to the two values `BUY` and `SELL`. -/
inductive Action where
  | buy
  | sell
deriving DecidableEq, Repr

/-- One row of the `orders` DataFrame handed to `separate_orders`: the columns
the partitioner reads (`Symbol`, `SecType`, `Action`) plus `TotalQuantity`
as a representative payload column that distinguishes otherwise equal rows. -/
structure Order where
  Symbol : String
  SecType : String
  Action : Action
  TotalQuantity : Int
deriving DecidableEq, Repr

/-- Embeds `orders[orders['Action'] == 'BUY']` (row filter, input order kept). -/
def buyRows (orders : List Order) : List Order :=
  orders.filter (fun o => o.Action == Action.buy)

/-- Embeds `orders[orders['Action'] == 'SELL']`. -/
def sellRows (orders : List Order) : List Order :=
  orders.filter (fun o => o.Action == Action.sell)

/-- The flattened value pool that `np.isin` actually tests membership in:
`np.isin(buy_tuples, sell_tuples)` flattens its second argument, so the test
set is every `Symbol` value and every `SecType` value of the sell rows,
pooled together. -/
def sellFeatureValues (sells : List Order) : List String :=
  sells.map (fun s => s.Symbol) ++ sells.map (fun s => s.SecType)

/-- Row `i` of `np.isin(buy_tuples, sell_tuples).all(axis=1)`: the buy row's
`Symbol` is somewhere in the flattened sell-feature pool AND its `SecType` is
somewhere in that same pool. -/
def isDuplicateRow (sells : List Order) (b : Order) : Bool :=
  (sellFeatureValues sells).contains b.Symbol
    && (sellFeatureValues sells).contains b.SecType

/-- Embeds `separate_orders` from `src/ib_trading_system/utils_order.py`.

* empty input: both rounds empty;
* only buys or only sells: round 1 is the whole input, round 2 empty;
* otherwise round 2 is the buy rows flagged by
  `np.isin(buy_tuples, sell_tuples).all(axis=1)` and round 1 is
  `pd.concat([sell_orders_df, not_cross_buy_orders_df])`
  (all sell rows first, then the unflagged buy rows).
`reset_index(drop=True)` only renumbers rows and is the identity here. -/
def separate_orders (orders : List Order) : List Order × List Order :=
  if orders.length ≠ 0 then
    let buy_orders_df := buyRows orders
    let sell_orders_df := sellRows orders
    if buy_orders_df.length = 0 ∨ sell_orders_df.length = 0 then
      (orders, [])
    else
      let cross_buy_orders_df :=
        buy_orders_df.filter (fun b => isDuplicateRow sell_orders_df b)
      let not_cross_buy_orders_df :=
        buy_orders_df.filter (fun b => ! isDuplicateRow sell_orders_df b)
      (sell_orders_df ++ not_cross_buy_orders_df, cross_buy_orders_df)
  else
    ([], [])

/-- The instrument key of a row: the `(Symbol, SecType)` pair. -/
def instrumentKey (o : Order) : String × String :=
  (o.Symbol, o.SecType)

example :
    separate_orders
      [⟨"AAPL", "STK", Action.sell, 100⟩,
       ⟨"AAPL", "STK", Action.buy, 50⟩,
       ⟨"MSFT", "STK", Action.buy, 20⟩]
      = ([⟨"AAPL", "STK", Action.sell, 100⟩, ⟨"MSFT", "STK", Action.buy, 20⟩],
         [⟨"AAPL", "STK", Action.buy, 50⟩]) := by decide

example :
    separate_orders
      [⟨"AAPL", "STK", Action.buy, 10⟩, ⟨"MSFT", "STK", Action.buy, 5⟩]
      = ([⟨"AAPL", "STK", Action.buy, 10⟩, ⟨"MSFT", "STK", Action.buy, 5⟩],
         []) := by decide

-- np.isin slip: buy (AAPL, OPT) has no matching sell key, yet both of its
-- feature values occur in the pooled sell features, so it lands in round 2.
example :
    separate_orders
      [⟨"AAPL", "OPT", Action.buy, 1⟩,
       ⟨"AAPL", "STK", Action.sell, 2⟩,
       ⟨"MSFT", "OPT", Action.sell, 3⟩]
      = ([⟨"AAPL", "STK", Action.sell, 2⟩, ⟨"MSFT", "OPT", Action.sell, 3⟩],
         [⟨"AAPL", "OPT", Action.buy, 1⟩]) := by decide

/-- Every row is a buy row or a sell row: the `Action` column is two-valued. -/
theorem buy_or_sell (o : Order) :
    (o.Action == Action.buy) = ! (o.Action == Action.sell) := by
  cases h : o.Action <;> rfl

/-- The buy rows are exactly the non-sell rows. -/
theorem buyRows_eq_filter_not_sell (orders : List Order) :
    buyRows orders = orders.filter (fun o => ! (o.Action == Action.sell)) := by
  unfold buyRows
  exact List.filter_congr fun o _ => buy_or_sell o

/-- In the two-round branch, round 1 together with round 2 is a permutation
of the input. -/
theorem sell_noncross_cross_perm (orders : List Order) :
    List.Perm
      ((sellRows orders ++
          (buyRows orders).filter
            (fun b => ! isDuplicateRow (sellRows orders) b)) ++
        (buyRows orders).filter (fun b => isDuplicateRow (sellRows orders) b))
      orders := by
  have h1 :
      List.Perm
        ((buyRows orders).filter
            (fun b => ! isDuplicateRow (sellRows orders) b) ++
          (buyRows orders).filter
            (fun b => isDuplicateRow (sellRows orders) b))
        (buyRows orders) :=
    (List.perm_append_comm).trans
      (List.filter_append_perm (fun b => isDuplicateRow (sellRows orders) b)
        (buyRows orders))
  have h2 : List.Perm (sellRows orders ++ buyRows orders) orders := by
    rw [buyRows_eq_filter_not_sell]
    exact List.filter_append_perm (fun o => o.Action == Action.sell) orders
  rw [List.append_assoc]
  exact (h1.append_left (sellRows orders)).trans h2

/-- Claim C2. For every input batch, the two rounds returned by
`separate_orders` are disjoint and their multiset union equals the input
batch: round 1 followed by round 2 is a permutation of the input (so every
input row appears in exactly one round, counted with multiplicity), and no
row value occurs in both rounds. -/
theorem separate_orders_partition (orders : List Order) :
    List.Perm ((separate_orders orders).1 ++ (separate_orders orders).2)
      orders ∧
    ∀ o : Order,
      o ∈ (separate_orders orders).1 → o ∉ (separate_orders orders).2 := by
  by_cases h0 : orders.length ≠ 0
  · by_cases h1 :
        (buyRows orders).length = 0 ∨ (sellRows orders).length = 0
    · have hres : separate_orders orders = (orders, []) := by
        simp only [separate_orders, if_pos h0, if_pos h1]
      rw [hres]
      refine ⟨by simp, ?_⟩
      intro o _ hmem
      simp at hmem
    · have hres : separate_orders orders =
          (sellRows orders ++
            (buyRows orders).filter
              (fun b => ! isDuplicateRow (sellRows orders) b),
           (buyRows orders).filter
             (fun b => isDuplicateRow (sellRows orders) b)) := by
        simp only [separate_orders, if_pos h0, if_neg h1]
      rw [hres]
      refine ⟨sell_noncross_cross_perm orders, ?_⟩
      intro o hmem1 hmem2
      rcases List.mem_filter.mp hmem2 with ⟨hbuy, hdup⟩
      rcases List.mem_append.mp hmem1 with hsell | hnon
      · have hb : (o.Action == Action.buy) = true :=
          (List.mem_filter.mp hbuy).2
        have hs : (o.Action == Action.sell) = true :=
          (List.mem_filter.mp hsell).2
        rw [buy_or_sell o, hs] at hb
        exact Bool.noConfusion hb
      · have hnd : (! isDuplicateRow (sellRows orders) o) = true :=
          (List.mem_filter.mp hnon).2
        rw [hdup] at hnd
        exact Bool.noConfusion hnd
  · have hnil : orders = [] := by
      simpa using List.length_eq_zero.mp (not_not.mp h0)
    subst hnil
    exact ⟨by simp [separate_orders], by simp [separate_orders]⟩

/-- The input on which the `np.isin` slip shows: the buy row's instrument
key `(AAPL, OPT)` matches no sell row's key, but both of its feature values
occur among the pooled sell features. -/
def isinBugInput : List Order :=
  [⟨"AAPL", "OPT", Action.buy, 1⟩,
   ⟨"AAPL", "STK", Action.sell, 2⟩,
   ⟨"MSFT", "OPT", Action.sell, 3⟩]

/-- The buy row of `isinBugInput`. -/
def isinBugBuy : Order := ⟨"AAPL", "OPT", Action.buy, 1⟩

/-- Claim C1. The claimed characterisation of round 2 fails on the code:
`isinBugInput` contains both BUY and SELL rows, its BUY row's instrument key
`(AAPL, OPT)` equals no SELL row's instrument key, yet `separate_orders`
places that BUY row in round 2.  The cause is
`np.isin(buy_tuples, sell_tuples).all(axis=1)`, which flattens the sell
tuples and tests the two features independently instead of comparing
`(Symbol, SecType)` pairs, contradicting the code's own comments
("Convert stock symbols and types to tuples for comparison"). -/
theorem separate_orders_crossing_isin_bug :
    (buyRows isinBugInput).length ≠ 0 ∧
    (sellRows isinBugInput).length ≠ 0 ∧
    (∀ s ∈ isinBugInput, s.Action = Action.sell →
        instrumentKey s ≠ instrumentKey isinBugBuy) ∧
    isinBugBuy ∈ (separate_orders isinBugInput).2 := by decide

/-- Input for C3: one BUY and one SELL on distinct instruments. -/
def mixedNoCrossInput : List Order :=
  [⟨"AAPL", "STK", Action.buy, 10⟩, ⟨"MSFT", "STK", Action.sell, 5⟩]

/-- Claim C3, counterexample. On `mixedNoCrossInput` no instrument key occurs
with both actions, and round 2 is indeed empty, but round 1 is *not* the
input in its original order: `separate_orders` emits the SELL rows first
(`pd.concat([sell_orders_df, not_cross_buy_orders_df])`), so
round 1 = [SELL MSFT, BUY AAPL] ≠ [BUY AAPL, SELL MSFT]. -/
theorem separate_orders_not_order_preserving :
    (∀ o1 ∈ mixedNoCrossInput, ∀ o2 ∈ mixedNoCrossInput,
        o1.Action = Action.buy → o2.Action = Action.sell →
        instrumentKey o1 ≠ instrumentKey o2) ∧
    (separate_orders mixedNoCrossInput).2 = [] ∧
    (separate_orders mixedNoCrossInput).1 ≠ mixedNoCrossInput := by decide

/-- Claim C3, amended. If no BUY row is flagged by the code's crossing test
(`np.isin` over pooled sell features — in particular whenever no BUY row's
`Symbol` and `SecType` both occur among the sell rows' pooled feature
values), then round 2 is empty and round 1 is the SELL rows in input order
followed by the BUY rows in input order (in particular, round 1 equals the
input whenever the input is empty, single-action, or already ordered with
all SELL rows before all BUY rows). -/
theorem separate_orders_no_crossing (orders : List Order)
    (h : ∀ b ∈ orders, b.Action = Action.buy →
        isDuplicateRow (sellRows orders) b = false) :
    separate_orders orders = (sellRows orders ++ buyRows orders, []) := by
  have hbuyfalse : ∀ b ∈ buyRows orders,
      isDuplicateRow (sellRows orders) b = false := by
    intro b hb
    rcases List.mem_filter.mp hb with ⟨hmem, hbuy⟩
    exact h b hmem (by simpa using hbuy)
  by_cases h0 : orders.length ≠ 0
  · by_cases h1 :
        (buyRows orders).length = 0 ∨ (sellRows orders).length = 0
    · have hres : separate_orders orders = (orders, []) := by
        simp only [separate_orders, if_pos h0, if_pos h1]
      rw [hres]
      rcases h1 with hb | hs
      · have hbnil : buyRows orders = [] := List.length_eq_zero.mp hb
        have hsall : sellRows orders = orders := by
          unfold sellRows
          refine List.filter_eq_self.mpr ?_
          intro o ho
          have : (o.Action == Action.buy) = false := by
            have := List.filter_eq_nil_iff.mp hbnil o ho
            simpa using this
          rw [buy_or_sell o] at this
          simpa using this
        rw [hbnil, hsall, List.append_nil]
      · have hsnil : sellRows orders = [] := List.length_eq_zero.mp hs
        have hball : buyRows orders = orders := by
          unfold buyRows
          refine List.filter_eq_self.mpr ?_
          intro o ho
          have : (o.Action == Action.sell) = false := by
            have := List.filter_eq_nil_iff.mp hsnil o ho
            simpa using this
          rw [buy_or_sell o, this]
          rfl
        rw [hsnil, hball, List.nil_append]
    · have hres : separate_orders orders =
          (sellRows orders ++
            (buyRows orders).filter
              (fun b => ! isDuplicateRow (sellRows orders) b),
           (buyRows orders).filter
             (fun b => isDuplicateRow (sellRows orders) b)) := by
        simp only [separate_orders, if_pos h0, if_neg h1]
      rw [hres]
      have hcross : (buyRows orders).filter
          (fun b => isDuplicateRow (sellRows orders) b) = [] := by
        refine List.filter_eq_nil_iff.mpr ?_
        intro b hb
        simp [hbuyfalse b hb]
      have hnoncross : (buyRows orders).filter
          (fun b => ! isDuplicateRow (sellRows orders) b) = buyRows orders := by
        refine List.filter_eq_self.mpr ?_
        intro b hb
        simp [hbuyfalse b hb]
      rw [hcross, hnoncross]
  · have hnil : orders = [] := by
      simpa using List.length_eq_zero.mp (not_not.mp h0)
    subst hnil
    simp [separate_orders, sellRows, buyRows]

/-- Witness for C3 (amended): on `mixedNoCrossInput` the hypothesis holds
and the amended conclusion evaluates as stated. -/
theorem separate_orders_no_crossing_witness :
    separate_orders mixedNoCrossInput =
      (sellRows mixedNoCrossInput ++ buyRows mixedNoCrossInput, []) :=
  separate_orders_no_crossing mixedNoCrossInput (by decide)

/-- Embeds `str.split(sep)` for a one-character separator, at character level:
splits into the (possibly empty) runs between occurrences of `sep`. -/
def splitOnChar (sep : Char) : List Char → List (List Char)
  | [] => [[]]
  | c :: rest =>
      if c = sep then
        [] :: splitOnChar sep rest
      else
        match splitOnChar sep rest with
        | [] => [[c]]
        | p :: ps => (c :: p) :: ps

/-- The numeric value of a decimal digit character, `none` otherwise. -/
def digitVal? (c : Char) : Option Nat :=
  if '0' ≤ c ∧ c ≤ '9' then some (c.toNat - Char.toNat '0') else none

/-- Accumulating decimal reader: fails on any non-digit character. -/
def digitsToNatAux : List Char → Nat → Option Nat
  | [], acc => some acc
  | c :: rest, acc =>
      match digitVal? c with
      | none => none
      | some d => digitsToNatAux rest (acc * 10 + d)

/-- Python's `int(str)` on a trimmed decimal literal: an optional sign
followed by at least one digit; anything else raises `ValueError`
(modelled as `none`). -/
def pyInt? (cs : List Char) : Option Int :=
  match cs with
  | [] => none
  | '-' :: rest =>
      if rest.length = 0 then none
      else (digitsToNatAux rest 0).map (fun n => -(n : Int))
  | '+' :: rest =>
      if rest.length = 0 then none
      else (digitsToNatAux rest 0).map (fun n => (n : Int))
  | _ => (digitsToNatAux cs 0).map (fun n => (n : Int))

/-- Embeds `parse_execution_time` from `utils_executionTime.py`.  Times of day are
modelled as seconds since local midnight of the current day.  The Python
splits on `":"`, maps `int` over the parts, and writes the two values into
`datetime.replace(hour=…, minute=…, second=0, microsecond=0)`; a string that
does not yield exactly two integers (unpacking error) or values outside
`replace`'s ranges (`ValueError`) raises, modelled as `none`. -/
def parse_execution_time (execution_time : String) : Option Int :=
  match (splitOnChar ':' execution_time.toList).map pyInt? with
  | [some h, some m] =>
      if 0 ≤ h ∧ h ≤ 23 ∧ 0 ≤ m ∧ m ≤ 59 then
        some (h * 3600 + m * 60)
      else
        none
  | _ => none

/-- Embeds `seconds_until_execution`: the signed number of seconds from `now`
(seconds since local midnight) to the parsed execution time today. -/
def seconds_until_execution (execution_time : String) (now : Int) :
    Option Int :=
  (parse_execution_time execution_time).map (fun d => d - now)

/-- Embeds `is_time_expired`: computes `wait_seconds`, subtracts the protection
margin, and runs `assert wait_seconds > 0`.  `some true` models the
`AssertionError` being raised, `some false` models the function returning
(its Python return value is `None`); `none` models a parse failure. -/
def is_time_expired (execution_time : String) (protect now : Int) :
    Option Bool :=
  (seconds_until_execution execution_time now).map
    (fun w => ! decide (w - protect > 0))

example : parse_execution_time "12:00" = some 43200 := by decide

/-- Claim C6. `is_time_expired` raises its `AssertionError`
(`= some true`) exactly when `now + safetyMarginSeconds ≥ deadline`, the
deadline being the parsed time-of-day interpreted as today; it returns
normally (`= some false`) exactly when `now + safetyMarginSeconds`
is still before the deadline. -/
theorem is_time_expired_iff_deadline (s : String) (protect now deadline : Int)
    (h : parse_execution_time s = some deadline) :
    (is_time_expired s protect now = some true ↔
        deadline ≤ now + protect) ∧
    (is_time_expired s protect now = some false ↔
        now + protect < deadline) := by
  simp only [is_time_expired, seconds_until_execution, h, Option.map_some']
  constructor
  · constructor
    · intro hsome
      have hb := Option.some.inj hsome
      simp at hb
      omega
    · intro hle
      have : ¬ (deadline - now - protect > 0) := by omega
      simp [this]
  · constructor
    · intro hsome
      have hb := Option.some.inj hsome
      simp at hb
      omega
    · intro hlt
      have : deadline - now - protect > 0 := by omega
      simp [this]

/-- Witness for C6 at the spec's scenario: deadline `"12:00"`, margin 20
seconds; at `now` = 11:59:50 the assertion fires, at `now` = 10:00:00 it
does not. -/
theorem is_time_expired_iff_deadline_witness :
    is_time_expired "12:00" 20 (11 * 3600 + 59 * 60 + 50) = some true ∧
    is_time_expired "12:00" 20 (10 * 3600) = some false :=
  ⟨(is_time_expired_iff_deadline "12:00" 20 (11 * 3600 + 59 * 60 + 50) 43200
      (by decide)).1.mpr (by decide),
   (is_time_expired_iff_deadline "12:00" 20 (10 * 3600) 43200
      (by decide)).2.mpr (by decide)⟩

/-- Observable outcome of `execute_func_at_time`:
* `raised` — the `AssertionError` thrown inside `is_time_expired`
  propagates out of `execute_func_at_time` to its caller;
* `ran w` — the thread slept `w` seconds and then invoked `func`;
* `parseError` — the deadline string failed to parse. -/
inductive GateOutcome where
  | raised
  | ran (sleptSeconds : Int)
  | parseError
deriving DecidableEq, Repr

/-- Embeds `execute_func_at_time` from `utils_executionTime.py`.  The guard
`if is_time_expired(...): return` can never take its `return` branch:
`is_time_expired` returns `None` (falsy) when the deadline has not passed
and raises `AssertionError` otherwise.  So an expired deadline propagates
the assertion to the caller, and an unexpired one falls through to
`time.sleep(wait_seconds)` followed by the `func(**func_args)` call. -/
def execute_func_at_time (execution_time : String) (protect now : Int) :
    GateOutcome :=
  match is_time_expired execution_time protect now with
  | none => GateOutcome.parseError
  | some true => GateOutcome.raised
  | some false =>
      match seconds_until_execution execution_time now with
      | none => GateOutcome.parseError
      | some w => GateOutcome.ran w

/-- Claim C7. At a deadline that has already effectively passed (deadline
`"12:00"`, margin 20 s, `now` = 11:59:50) `execute_func_at_time` does *not*
return silently: the `AssertionError` raised by `is_time_expired`
propagates to the caller (the gated function is indeed never invoked, but
an exception escapes, contrary to the claim). -/
theorem execute_func_at_time_propagates_assertion :
    execute_func_at_time "12:00" 20 (11 * 3600 + 59 * 60 + 50)
      = GateOutcome.raised ∧
    GateOutcome.raised ≠ GateOutcome.parseError ∧
    ∀ w : Int, GateOutcome.raised ≠ GateOutcome.ran w := by
  refine ⟨by decide, by decide, ?_⟩
  intro w h
  exact GateOutcome.noConfusion h

/-- Embeds `Trading.wait_until_orders_are_complete` from `trading.py`, driven by
the sizes of the successive `request_openOrders()` snapshots.  Each loop
iteration fetches one snapshot; `flag` is cleared when the snapshot is
empty, and the loop exits after that iteration's sleep.  The result is the
number of fetch calls performed; `none` models the supplied snapshot
sequence running out before any empty snapshot appears (the real loop would
keep polling forever). -/
def wait_until_orders_are_complete (snapshots : List Nat) : Option Nat :=
  match snapshots with
  | [] => none
  | n :: rest =>
      if n = 0 then some 1
      else (wait_until_orders_are_complete rest).map (fun c => c + 1)

/-- Claim C8. If the first empty `fetchOpenOrders` snapshot is the
`(pre.length + 1)`-th one (everything before it is nonempty), the poller
calls `fetchOpenOrders` exactly `pre.length + 1` times and returns. -/
theorem wait_until_orders_are_complete_polls (pre post : List Nat)
    (hpre : ∀ n ∈ pre, n ≠ 0) :
    wait_until_orders_are_complete (pre ++ 0 :: post)
      = some (pre.length + 1) := by
  induction pre with
  | nil => simp [wait_until_orders_are_complete]
  | cons n rest ih =>
      have hn : n ≠ 0 := hpre n (by simp)
      have hrest : ∀ m ∈ rest, m ≠ 0 := fun m hm => hpre m (by simp [hm])
      simp [wait_until_orders_are_complete, hn, ih hrest]

/-- Witness for C8 at the spec's scenario: snapshots of sizes 2 then 0
terminate the poller after exactly 2 polls. -/
theorem wait_until_orders_are_complete_polls_witness :
    wait_until_orders_are_complete [2, 0] = some 2 :=
  wait_until_orders_are_complete_polls [2] [] (by decide)

/-- One row of the executions DataFrame: the columns the reconciliation
code reads (`ExecId`, `ClientId`, `OrderId`, `Time`) plus `Shares` as a
representative payload column.  `Time` is the UTC instant of the fill, in
seconds since the epoch. -/
structure Execution where
  ExecId : String
  ClientId : Int
  OrderId : Int
  Time : Int
  Shares : Int
deriving DecidableEq, Repr

/-- One row of the commissions DataFrame: its `ExecId` key and the
commission amount as a representative payload column. -/
structure Commission where
  ExecId : String
  CommissionAmount : Int
deriving DecidableEq, Repr

/-- Embeds `Trading.filter_valid_callback` from `trading.py`:

1. `executions = executions[executions['ClientId'] == valid_clientId]`;
2. `executions = executions[executions['OrderId'].isin(valid_orderIds)]`;
3. `commissions = commissions.set_index('ExecId').loc[executions['ExecId']]`.

Step 3 label-indexes the commissions by the filtered executions' `ExecId`
column: it raises `KeyError` as soon as any requested label is missing from
the commissions (modelled as `none`), and otherwise returns, for each
filtered execution in order, every commission row carrying that `ExecId`. -/
def filter_valid_callback (executions : List Execution)
    (commissions : List Commission) (valid_clientId : Int)
    (valid_orderIds : List Int) : Option (List Execution × List Commission) :=
  let exs1 := executions.filter (fun e => e.ClientId == valid_clientId)
  let exs2 := exs1.filter (fun e => valid_orderIds.contains e.OrderId)
  if exs2.all (fun e => commissions.any (fun c => c.ExecId == e.ExecId)) then
    some (exs2,
      exs2.flatMap (fun e =>
        commissions.filter (fun c => c.ExecId == e.ExecId)))
  else
    none

/-- An execution whose commission report is absent. -/
def orphanExec : Execution := ⟨"e1", 1, 10, 0, 5⟩

/-- Claim C4, counterexample. `orphanExec` matches the requested clientId
and orderIds, but its `ExecId` has no commission row, so
`commissions.set_index('ExecId').loc[…]` raises `KeyError` (modelled
`none`) instead of returning the filtered rows with the commissions
dropped, refuting "no error is raised". -/
theorem filter_valid_callback_raises_keyerror :
    orphanExec.ClientId = 1 ∧
    orphanExec.OrderId ∈ [(10 : Int), 11] ∧
    filter_valid_callback [orphanExec] [] 1 [10, 11] = none := by decide

/-- Claim C4, amended. Provided every filtered execution's `ExecId` occurs
among the commissions, `filter_valid_callback` returns exactly the
execution rows whose `ClientId` equals `valid_clientId` and whose `OrderId`
is a member of `valid_orderIds`, and a commission list whose members are
exactly the commission rows whose `ExecId` occurs among those filtered
executions (rows with other `ExecId`s are dropped; matching rows are listed
per filtered execution, in execution order).  When some filtered
execution's `ExecId` is absent from the commissions, `KeyError` is raised
instead (see the counterexample). -/
theorem filter_valid_callback_filters (executions : List Execution)
    (commissions : List Commission) (valid_clientId : Int)
    (valid_orderIds : List Int)
    (h : ∀ e ∈ (executions.filter
          (fun e => e.ClientId == valid_clientId)).filter
            (fun e => valid_orderIds.contains e.OrderId),
        ∃ c ∈ commissions, c.ExecId = e.ExecId) :
    filter_valid_callback executions commissions valid_clientId valid_orderIds
      = some ((executions.filter
            (fun e => e.ClientId == valid_clientId)).filter
              (fun e => valid_orderIds.contains e.OrderId),
          ((executions.filter
            (fun e => e.ClientId == valid_clientId)).filter
              (fun e => valid_orderIds.contains e.OrderId)).flatMap
            (fun e => commissions.filter (fun c => c.ExecId == e.ExecId))) ∧
    ∀ c : Commission,
      c ∈ ((executions.filter
            (fun e => e.ClientId == valid_clientId)).filter
              (fun e => valid_orderIds.contains e.OrderId)).flatMap
            (fun e => commissions.filter (fun c => c.ExecId == e.ExecId)) ↔
        c ∈ commissions ∧
        ∃ e ∈ (executions.filter
            (fun e => e.ClientId == valid_clientId)).filter
              (fun e => valid_orderIds.contains e.OrderId),
          e.ExecId = c.ExecId := by
  constructor
  · have hall : ((executions.filter
        (fun e => e.ClientId == valid_clientId)).filter
          (fun e => valid_orderIds.contains e.OrderId)).all
        (fun e => commissions.any (fun c => c.ExecId == e.ExecId)) = true := by
      rw [List.all_eq_true]
      intro e he
      rw [List.any_eq_true]
      rcases h e he with ⟨c, hc, hce⟩
      exact ⟨c, hc, by simp [hce]⟩
    simp only [filter_valid_callback, if_pos hall]
  · intro c
    constructor
    · intro hc
      rcases List.mem_flatMap.mp hc with ⟨e, he, hcf⟩
      rcases List.mem_filter.mp hcf with ⟨hcm, hceq⟩
      refine ⟨hcm, e, he, ?_⟩
      have : c.ExecId = e.ExecId := by simpa using hceq
      exact this.symm
    · rintro ⟨hcm, e, he, hee⟩
      exact List.mem_flatMap.mpr
        ⟨e, he, List.mem_filter.mpr ⟨hcm, by simp [hee]⟩⟩

/-- Executions for the C4 witness, clientIds {1, 2}, orderIds {10, 99}. -/
def wExec1 : Execution := ⟨"e1", 1, 10, 0, 5⟩

/-- Second witness execution: wrong clientId. -/
def wExec2 : Execution := ⟨"e2", 2, 10, 0, 6⟩

/-- Third witness execution: right clientId, wrong orderId. -/
def wExec3 : Execution := ⟨"e3", 1, 99, 0, 7⟩

/-- The matching commission row for `wExec1`. -/
def wCom1 : Commission := ⟨"e1", 3⟩

/-- A commission row whose `ExecId` matches no filtered execution. -/
def wCom2 : Commission := ⟨"zz", 4⟩

/-- Witness for C4 (amended): filtering by clientId 1 and orderIds
{10, 11} keeps exactly `wExec1` and exactly its commission `wCom1`,
dropping `wCom2`. -/
theorem filter_valid_callback_filters_witness :
    filter_valid_callback [wExec1, wExec2, wExec3] [wCom1, wCom2] 1 [10, 11]
      = some ([wExec1], [wCom1]) :=
  (filter_valid_callback_filters [wExec1, wExec2, wExec3] [wCom1, wCom2]
    1 [10, 11] (by decide)).1

/-- Embeds `DataFrame.drop_duplicates(subset, keep="last")` keyed by `key`: a row
is kept iff no later row carries the same key (`src/main.py` applies this
with `subset=["ExecId"]` to the executions and commissions of the latest
date bucket). -/
def drop_duplicates_last {α : Type} (key : α → String) : List α → List α
  | [] => []
  | x :: rest =>
      if rest.any (fun y => key y == key x) then
        drop_duplicates_last key rest
      else
        x :: drop_duplicates_last key rest

/-- Within the deduplicated list, the rows carrying key `k` are exactly the
last row of the input carrying key `k` (none if `k` never occurs). -/
theorem drop_duplicates_last_filter {α : Type} (key : α → String)
    (xs : List α) (k : String) :
    (drop_duplicates_last key xs).filter (fun x => key x == k)
      = ((xs.filter (fun x => key x == k)).getLast?).toList := by
  induction xs with
  | nil => rfl
  | cons x rest ih =>
      by_cases hdup : rest.any (fun y => key y == key x) = true
      · rw [show drop_duplicates_last key (x :: rest)
              = drop_duplicates_last key rest by
            simp [drop_duplicates_last, hdup]]
        by_cases hk : key x = k
        · have hxk : (key x == k) = true := by simp [hk]
          have hnonnil : rest.filter (fun y => key y == k) ≠ [] := by
            rcases List.any_eq_true.mp hdup with ⟨y, hy, hyk⟩
            have hyk' : key y = k := by
              have h1 : key y = key x := by simpa using hyk
              rw [h1, hk]
            intro hnil
            exact List.filter_eq_nil_iff.mp hnil y hy (by simp [hyk'])
          rw [List.filter_cons_of_pos (by simpa using hxk)]
          cases hfr : rest.filter (fun y => key y == k) with
          | nil => exact absurd hfr hnonnil
          | cons z zs =>
              rw [ih, hfr, List.getLast?_cons_cons]
        · have hxk : (key x == k) = false := by simp [hk]
          rw [List.filter_cons_of_neg (by simp [hxk]), ih]
      · rw [show drop_duplicates_last key (x :: rest)
              = x :: drop_duplicates_last key rest by
            simp [drop_duplicates_last, hdup]]
        by_cases hk : key x = k
        · have hfr : rest.filter (fun y => key y == k) = [] := by
            refine List.filter_eq_nil_iff.mpr ?_
            intro y hy
            intro hyk
            refine hdup (List.any_eq_true.mpr ⟨y, hy, ?_⟩)
            have hyk' : key y = k := by simpa using hyk
            simp [hyk', hk]
          have hddr : (drop_duplicates_last key rest).filter
              (fun y => key y == k) = [] := by
            rw [ih, hfr]
            rfl
          rw [List.filter_cons_of_pos (by simp [hk]),
            List.filter_cons_of_pos (by simp [hk]), hddr, hfr]
          rfl
        · rw [List.filter_cons_of_neg (by simp [hk]),
            List.filter_cons_of_neg (by simp [hk]), ih]

/-- Deduplication does not change which keys occur. -/
theorem drop_duplicates_last_any {α : Type} (key : α → String)
    (xs : List α) (k : String) :
    ((drop_duplicates_last key xs).any (fun y => key y == k))
      = (xs.any (fun y => key y == k)) := by
  induction xs with
  | nil => rfl
  | cons x rest ih =>
      by_cases hdup : rest.any (fun y => key y == key x) = true
      · rw [show drop_duplicates_last key (x :: rest)
              = drop_duplicates_last key rest by
            simp [drop_duplicates_last, hdup]]
        rw [ih]
        by_cases hk : key x = k
        · rcases List.any_eq_true.mp hdup with ⟨y, hy, hyk⟩
          have hyk' : key y = k := by
            have : key y = key x := by simpa using hyk
            rw [this, hk]
          have hrk : rest.any (fun y => key y == k) = true :=
            List.any_eq_true.mpr ⟨y, hy, by simp [hyk']⟩
          simp [hrk, hk]
        · simp [List.any_cons, hk]
      · rw [show drop_duplicates_last key (x :: rest)
              = x :: drop_duplicates_last key rest by
            simp [drop_duplicates_last, hdup]]
        simp [List.any_cons, ih]

/-- Deduplication is idempotent. -/
theorem drop_duplicates_last_idem {α : Type} (key : α → String)
    (xs : List α) :
    drop_duplicates_last key (drop_duplicates_last key xs)
      = drop_duplicates_last key xs := by
  induction xs with
  | nil => rfl
  | cons x rest ih =>
      by_cases hdup : rest.any (fun y => key y == key x) = true
      · rw [show drop_duplicates_last key (x :: rest)
              = drop_duplicates_last key rest by
            simp [drop_duplicates_last, hdup]]
        exact ih
      · rw [show drop_duplicates_last key (x :: rest)
              = x :: drop_duplicates_last key rest by
            simp [drop_duplicates_last, hdup]]
        have hany : (drop_duplicates_last key rest).any
            (fun y => key y == key x) = false := by
          rw [drop_duplicates_last_any key rest (key x)]
          simpa using hdup
        rw [show drop_duplicates_last key
              (x :: drop_duplicates_last key rest)
              = x :: drop_duplicates_last key
                  (drop_duplicates_last key rest) by
            simp [drop_duplicates_last, hany]]
        rw [ih]

/-- Claim C5. The reconciliation deduplication
(`drop_duplicates(subset=["ExecId"], keep="last")`, `src/main.py`):
for every `ExecId` value `k`, the deduplicated executions contain exactly
the last-seen execution with `ExecId = k`, and identically for the
commissions via the same keyed deduplication; and re-running the
deduplication on its own output changes nothing (idempotence). -/
theorem dedup_keeps_last_and_idempotent (exs : List Execution)
    (coms : List Commission) :
    (∀ k : String,
        (drop_duplicates_last (fun e => e.ExecId) exs).filter
            (fun e => e.ExecId == k)
          = ((exs.filter (fun e => e.ExecId == k)).getLast?).toList) ∧
    (∀ k : String,
        (drop_duplicates_last (fun c => c.ExecId) coms).filter
            (fun c => c.ExecId == k)
          = ((coms.filter (fun c => c.ExecId == k)).getLast?).toList) ∧
    drop_duplicates_last (fun e => e.ExecId)
        (drop_duplicates_last (fun e => e.ExecId) exs)
      = drop_duplicates_last (fun e => e.ExecId) exs ∧
    drop_duplicates_last (fun c => c.ExecId)
        (drop_duplicates_last (fun c => c.ExecId) coms)
      = drop_duplicates_last (fun c => c.ExecId) coms :=
  ⟨fun k => drop_duplicates_last_filter (fun e => e.ExecId) exs k,
   fun k => drop_duplicates_last_filter (fun c => c.ExecId) coms k,
   drop_duplicates_last_idem (fun e => e.ExecId) exs,
   drop_duplicates_last_idem (fun c => c.ExecId) coms⟩

/-- The timezones named in `group_execution_and_commission_by_date`. -/
inductive Tz where
  | utc
  | taipei
  | eastern
deriving DecidableEq, Repr

/-- A pandas tz-aware timestamp: the absolute instant (seconds since the
epoch, UTC) together with the timezone the column is currently displayed
in. -/
structure PdTimestamp where
  instant : Int
  tz : Tz
deriving DecidableEq, Repr

/-- Embeds `pd.to_datetime(col, utc=True)`: interpret the raw value as a UTC
instant. -/
def to_datetime_utc (t : Int) : PdTimestamp :=
  ⟨t, Tz.utc⟩

/-- Embeds `Series.dt.tz_convert(zone)`: changes only the display timezone of a
tz-aware timestamp, never the underlying instant. -/
def tz_convert (z : Tz) (t : PdTimestamp) : PdTimestamp :=
  ⟨t.instant, z⟩

/-- Embeds `.dt.date` relative to a timezone-offset table `offset` (seconds east
of UTC for each zone at each instant; the tz database itself is external to
the repository): the calendar date — as a day number since the epoch — of
the timestamp in its display timezone. -/
def pd_date (offset : Tz → Int → Int) (t : PdTimestamp) : Int :=
  (t.instant + offset t.tz t.instant).fdiv 86400

/-- Embeds `pd.merge(exceutions, commissions, on="ExecId", how="inner")`: each
execution row in order, paired with every commission row sharing its
`ExecId`, in commission order; rows without a counterpart are dropped. -/
def merge_on_execId (exs : List Execution) (coms : List Commission) :
    List (Execution × Commission) :=
  exs.flatMap (fun e =>
    (coms.filter (fun c => c.ExecId == e.ExecId)).map (fun c => (e, c)))

/-- Lines 33 and 36 of `utils_callback.py` applied to one merged row: the
`Time` column is read as UTC, converted to `Asia/Taipei`, then converted to
`US/Eastern`, and the calendar date is taken there. -/
def row_date_eastern (offset : Tz → Int → Int)
    (p : Execution × Commission) : Int :=
  pd_date offset
    (tz_convert Tz.eastern (tz_convert Tz.taipei (to_datetime_utc p.1.Time)))

/-- Sorted insertion of a date key. -/
def insertSortedInt (x : Int) : List Int → List Int
  | [] => [x]
  | y :: ys => if x ≤ y then x :: y :: ys else y :: insertSortedInt x ys

/-- Insertion sort of the date keys (`groupby` sorts group keys). -/
def sortInts (l : List Int) : List Int :=
  l.foldr insertSortedInt []

/-- The group keys of a `groupby`: the distinct values, in ascending
order. -/
def groupKeys (l : List Int) : List Int :=
  sortInts l.dedup

/-- The body of the `for group, sub_df in merged_df.groupby(...)` loop for
one date `d`: the merged rows of that date, restricted to
`valid_clientId` when one is supplied (`sub_df[sub_df['ClientId']==…]`),
then projected back to execution columns and commission columns. -/
def dateBucket (offset : Tz → Int → Int)
    (merged : List (Execution × Commission)) (valid_clientId : Option Int)
    (d : Int) : List Execution × List Commission :=
  let sub := merged.filter (fun p => row_date_eastern offset p == d)
  let sub2 :=
    match valid_clientId with
    | none => sub
    | some cid => sub.filter (fun p => p.1.ClientId == cid)
  (sub2.map Prod.fst, sub2.map Prod.snd)

/-- Embeds `group_execution_and_commission_by_date` from `utils_callback.py`,
as a date-keyed association list (ascending date keys, as `groupby`
produces them): inner-join on `ExecId`, compute each row's US/Eastern date
through the Asia/Taipei hop, group by that date, and restrict each date's
rows to `valid_clientId` when one is supplied. -/
def group_execution_and_commission_by_date (offset : Tz → Int → Int)
    (exs : List Execution) (coms : List Commission)
    (valid_clientId : Option Int) :
    List (Int × (List Execution × List Commission)) :=
  (groupKeys ((merge_on_execId exs coms).map (row_date_eastern offset))).map
    (fun d => (d, dateBucket offset (merge_on_execId exs coms)
      valid_clientId d))

/-- Modelled from the spec's words, for the C9 comparison only: first
restrict the inner-joined rows to the supplied clientId, and only then
bucket by US/Eastern date — so a date whose joined rows all carry other
clientIds yields no key at all. -/
def group_restrict_then_bucket (offset : Tz → Int → Int)
    (exs : List Execution) (coms : List Commission) (cid : Int) :
    List (Int × (List Execution × List Commission)) :=
  (groupKeys
      (((merge_on_execId exs coms).filter
          (fun p => p.1.ClientId == cid)).map (row_date_eastern offset))).map
    (fun d => (d, dateBucket offset
      ((merge_on_execId exs coms).filter (fun p => p.1.ClientId == cid))
      none d))

/-- An execution belonging to client 2 (reconciliation will ask for
client 1). -/
def cli2Exec : Execution := ⟨"e1", 2, 10, 0, 1⟩

/-- Its commission row. -/
def cli2Com : Commission := ⟨"e1", 3⟩

/-- A trivial offset table (every zone at UTC); any concrete table works
for the counterexample. -/
def zeroOffset : Tz → Int → Int := fun _ _ => 0

/-- Claim C9, counterexample. With a single joined row belonging to client
2, grouping for client 1 still emits that row's date as a key — mapped to
empty frames — because the code filters by clientId *after* forming the
date groups; restricting first and then grouping yields the empty mapping,
so the two mappings differ. -/
theorem group_by_date_keeps_empty_date_key :
    group_execution_and_commission_by_date zeroOffset [cli2Exec] [cli2Com]
        (some 1) = [(0, ([], []))] ∧
    group_restrict_then_bucket zeroOffset [cli2Exec] [cli2Com] 1 = [] ∧
    group_execution_and_commission_by_date zeroOffset [cli2Exec] [cli2Com]
        (some 1)
      ≠ group_restrict_then_bucket zeroOffset [cli2Exec] [cli2Com] 1 := by
  decide

/-- Restriction of an already-built date bucket to one clientId: the
paired execution/commission rows whose execution carries that clientId. -/
def bucket_restrict (cid : Int) (b : List Execution × List Commission) :
    List Execution × List Commission :=
  ((((b.1.zip b.2).filter (fun p => p.1.ClientId == cid)).map Prod.fst),
   (((b.1.zip b.2).filter (fun p => p.1.ClientId == cid)).map Prod.snd))

/-- Per-date form of the C9 amendment: supplying a clientId filters each
date bucket's rows in place. -/
theorem dateBucket_some (offset : Tz → Int → Int)
    (merged : List (Execution × Commission)) (cid : Int) (d : Int) :
    dateBucket offset merged (some cid) d
      = bucket_restrict cid (dateBucket offset merged none d) := by
  unfold dateBucket bucket_restrict
  simp only [List.zip_map' Prod.fst Prod.snd, Prod.mk.eta, List.map_id,
    List.map_id']

/-- Claim C9, amended. Supplying `ownerClientId` restricts each date
bucket's rows to that clientId, but only after the date keys have been
formed from the unrestricted join: the mapping for `some cid` is the
mapping for `none` with every bucket restricted in place.  Its key set is
that of the unrestricted join, so a date whose joined rows all carry other
clientIds still appears, mapped to empty frames (it is *not* dropped, see
the counterexample). -/
theorem group_by_date_clientId_after_grouping (offset : Tz → Int → Int)
    (exs : List Execution) (coms : List Commission) (cid : Int) :
    group_execution_and_commission_by_date offset exs coms (some cid)
      = (group_execution_and_commission_by_date offset exs coms none).map
          (fun b => (b.1, bucket_restrict cid b.2)) := by
  unfold group_execution_and_commission_by_date
  rw [List.map_map]
  refine List.map_congr_left ?_
  intro d _
  simp only [Function.comp_apply]
  rw [dateBucket_some]

/-- The single-conversion date of one merged row: UTC straight to
US/Eastern, no Asia/Taipei hop (comparison definition for C10). -/
def row_date_eastern_direct (offset : Tz → Int → Int)
    (p : Execution × Commission) : Int :=
  pd_date offset (tz_convert Tz.eastern (to_datetime_utc p.1.Time))

/-- The loop body of the single-conversion variant. -/
def dateBucketDirect (offset : Tz → Int → Int)
    (merged : List (Execution × Commission)) (valid_clientId : Option Int)
    (d : Int) : List Execution × List Commission :=
  let sub := merged.filter (fun p => row_date_eastern_direct offset p == d)
  let sub2 :=
    match valid_clientId with
    | none => sub
    | some cid => sub.filter (fun p => p.1.ClientId == cid)
  (sub2.map Prod.fst, sub2.map Prod.snd)

/-- The single-conversion variant of
`group_execution_and_commission_by_date` (comparison definition for
C10). -/
def group_by_date_direct (offset : Tz → Int → Int)
    (exs : List Execution) (coms : List Commission)
    (valid_clientId : Option Int) :
    List (Int × (List Execution × List Commission)) :=
  (groupKeys
      ((merge_on_execId exs coms).map (row_date_eastern_direct offset))).map
    (fun d => (d, dateBucketDirect offset (merge_on_execId exs coms)
      valid_clientId d))

/-- Claim C10. Converting a UTC timestamp to Asia/Taipei and then to
US/Eastern yields the very same timestamp (same instant, same final
display zone) as converting directly to US/Eastern — `tz_convert` never
moves the instant — and therefore
`group_execution_and_commission_by_date` is equal, on every input and for
every timezone-offset table, to the single-conversion variant: the
intermediate Asia/Taipei hop never changes any date bucket. -/
theorem group_by_date_taipei_hop_redundant (offset : Tz → Int → Int) :
    (∀ t : Int,
        tz_convert Tz.eastern (tz_convert Tz.taipei (to_datetime_utc t))
          = tz_convert Tz.eastern (to_datetime_utc t)) ∧
    ∀ (exs : List Execution) (coms : List Commission)
        (valid_clientId : Option Int),
      group_execution_and_commission_by_date offset exs coms valid_clientId
        = group_by_date_direct offset exs coms valid_clientId :=
  ⟨fun _ => rfl, fun _ _ _ => rfl⟩

end IbTrading
